import Mathlib

/-!
Shallow embedding of the menu-catalog and conversational order-extraction
subsystem of the quickstart phone bot (source files `menu_integration.py` and
`enhanced_restaurant_bot.py`).

Strings are modelled as `List Char`; Python `str.lower()` is modelled with
core `Char.toLower` (identical behaviour on the ASCII data this program
manipulates); Python `float` currency arithmetic is modelled over `ℚ` with
prices in exact decimal form, and Python 3 `round(x, 2)` (round-half-to-even)
is modelled exactly by `roundTo2`.  Python dicts are modelled as association
lists with insert-or-overwrite semantics preserving first-insertion key order,
matching CPython dict iteration order.
-/

set_option maxRecDepth 1000000

namespace PhoneBot

/-! ### Character and string helpers -/

/-- Python `str.lower()` character-wise (ASCII case mapping, as in
`Char.toLower`). -/
def lower (l : List Char) : List Char := l.map Char.toLower

/-- Python `\s` whitespace class membership used by the quantity regex. -/
def isWsB (c : Char) : Bool := c.isWhitespace

/-- Python `\w` word-character class membership (ASCII letters, digits and
underscore) used by the quantity regex. -/
def isWordCharB (c : Char) : Bool := c.isAlphanum || c == '_'

/-- Python `p in t` literal substring containment. -/
def isSubstr (p : List Char) : List Char → Bool
  | [] => p.isEmpty
  | c :: rest => p.isPrefixOf (c :: rest) || isSubstr p rest

/-- Python `" ".join(parts)`. -/
def joinSpace (parts : List (List Char)) : List Char :=
  List.intercalate [' '] parts

/-- Python `s.split()`: split on runs of whitespace, dropping empty pieces
(auxiliary, accumulator holds the current word reversed). -/
def splitWordsAux : List Char → List Char → List (List Char)
  | [], acc => if acc.isEmpty then [] else [acc.reverse]
  | c :: rest, acc =>
      if isWsB c then
        if acc.isEmpty then splitWordsAux rest [] else acc.reverse :: splitWordsAux rest []
      else splitWordsAux rest (c :: acc)

/-- Python `s.split()` with no argument. -/
def splitWords (l : List Char) : List (List Char) := splitWordsAux l []

/-! ### Data model (`menu_integration.py`) -/

/-- A catalog entry as stored in the menu JSON: `{name, price, tags?}`
(the optional `desc` field plays no role in the claims' operations). -/
structure MenuItem where
  name : List Char
  price : ℚ
  tags : List (List Char)
deriving DecidableEq, Repr

/-- The loaded `menu_data["menu"]` mapping: category name → items, in
declaration order. -/
abbrev Menu := List (List Char × List MenuItem)

/-- One binding of `self.item_index`: lowered item name ↦ (category, item). -/
abbrev IndexEntry := List Char × (List Char × MenuItem)

/-- A transcript message `{role, content}`. -/
structure Msg where
  role : List Char
  content : List Char
deriving DecidableEq, Repr

/-! ### Catalog index and lookup (`OishiiMenuManager`) -/

/-- CPython dict assignment `d[k] = v`: overwrite in place if the key is
present, else append at the end (first-insertion iteration order). -/
def dictInsert (k : List Char) (v : List Char × MenuItem) :
    List IndexEntry → List IndexEntry
  | [] => [(k, v)]
  | (k', v') :: rest =>
      if k' = k then (k, v) :: rest else (k', v') :: dictInsert k v rest

/-- `OishiiMenuManager._build_search_index`: iterate categories in order, then
items in order, assigning `item_index[item.name.lower()] = (category, item)`. -/
def build_search_index (menu : Menu) : List IndexEntry :=
  menu.foldl
    (fun idx cat => cat.2.foldl
      (fun idx it => dictInsert (lower it.name) (cat.1, it) idx) idx)
    []

/-- Python `self.item_index.get(k)`. -/
def lookupIndex (idx : List IndexEntry) (k : List Char) :
    Option (List Char × MenuItem) :=
  (idx.find? (fun e => e.1 == k)).map (·.2)

/-- `OishiiMenuManager.search_items`: lower the query, then collect every
index entry whose key contains the query, or one of whose words contains the
query, in index iteration order. -/
def search_items (menu : Menu) (query : List Char) : List MenuItem :=
  let q := lower query
  (build_search_index menu).filterMap (fun e =>
    if isSubstr q e.1 || (splitWords e.1).any (fun w => isSubstr q w) then
      some e.2.2
    else none)

/-- `OishiiMenuManager.get_item_by_name`: exact index hit on the lowered name
first, else the first fuzzy `search_items` result, else `None`. -/
def get_item_by_name (menu : Menu) (item_name : List Char) : Option MenuItem :=
  match lookupIndex (build_search_index menu) (lower item_name) with
  | some cv => some cv.2
  | none => (search_items menu item_name).head?

/-! ### Pricing (`OishiiMenuManager.calculate_total`) -/

/-- A line as consumed by `calculate_total`: a dict with `price` and
`quantity` keys. -/
structure PricedLine where
  price : ℚ
  quantity : ℤ
deriving DecidableEq, Repr

/-- Floor of a rational (denominators are positive, so Euclidean division of
the numerator is the floor). -/
def qfloor (q : ℚ) : ℤ := Int.ediv q.num (q.den : ℤ)

/-- Python 3 `round(x)` on an exact value: round half to even. -/
def roundHalfToEven (q : ℚ) : ℤ :=
  let f := qfloor q
  let r := q - (f : ℚ)
  if r < 1/2 then f
  else if (1 : ℚ)/2 < r then f + 1
  else if f % 2 = 0 then f else f + 1

/-- Python 3 `round(x, 2)` on an exact value. -/
def roundTo2 (q : ℚ) : ℚ := (roundHalfToEven (q * 100) : ℚ) / 100

/-- `OishiiMenuManager.calculate_total`: subtotal of `price * quantity`, plus
hardcoded 13% HST when `include_tax`, rounded to two decimals. -/
def calculate_total (items : List PricedLine) (include_tax : Bool := true) : ℚ :=
  let subtotal := (items.map (fun it => it.price * (it.quantity : ℚ))).sum
  if include_tax then roundTo2 (subtotal + subtotal * (13/100))
  else roundTo2 subtotal

/-! ### Transcript extraction (`OrderProcessor.extract_items_from_conversation`)

The quantity regex `(\w+)\s+<pattern>` is modelled exactly: since word
characters and whitespace are disjoint classes and every pattern starts with a
word character, a match at a given start position is forced to be (maximal
word-character run, maximal whitespace run, the literal pattern), and
`re.search` takes the leftmost matching start position. -/

/-- One attempt of the quantity regex at the current position: a nonempty
word-character run, a nonempty whitespace run, then the literal pattern;
returns the captured group (the run of word characters). -/
def tryMatch (p t : List Char) : Option (List Char) :=
  let w := t.takeWhile isWordCharB
  let r1 := t.dropWhile isWordCharB
  let s := r1.takeWhile isWsB
  let r2 := r1.dropWhile isWsB
  if w.isEmpty then none
  else if s.isEmpty then none
  else if p.isPrefixOf r2 then some w
  else none

/-- `re.search(rf"(\w+)\s+{pattern}", t)`: leftmost match wins; yields the
captured preceding word. -/
def searchQty (p : List Char) : List Char → Option (List Char)
  | [] => none
  | c :: rest =>
      match tryMatch p (c :: rest) with
      | some w => some w
      | none => searchQty p rest

/-- The fixed quantity word table `qty_map`. -/
def qty_map : List (List Char × Nat) :=
  [("one".data, 1), ("two".data, 2), ("three".data, 3),
   ("four".data, 4), ("five".data, 5)]

/-- Python `qty_map.get(qty_word, 1)`. -/
def qtyLookup (w : List Char) : Nat :=
  ((qty_map.find? (fun e => e.1 == w)).map (·.2)).getD 1

/-- The quantity resolved for a matched pattern: the regex group looked up in
`qty_map` with default 1, or 1 when the regex does not match at all. -/
def extract_quantity (t p : List Char) : Nat :=
  match searchQty p t with
  | some w => qtyLookup w
  | none => 1

/-- The hardcoded `item_patterns` list: lowercase phrase ↦ menu item name. -/
def item_patterns : List (List Char × List Char) :=
  [("california roll".data, "California Roll".data),
   ("salmon roll".data, "Salmon Roll".data),
   ("tuna roll".data, "Tuna Roll".data),
   ("miso soup".data, "Miso Soup".data),
   ("edamame".data, "Edamame".data),
   ("chicken teriyaki".data, "Chicken Teriyaki".data),
   ("salmon sushi".data, "Salmon Sushi".data),
   ("tuna sushi".data, "Tuna Sushi".data)]

/-- An extracted order line dict `{name, price, quantity, modifications}`. -/
structure OrderedItem where
  name : List Char
  price : ℚ
  quantity : Nat
  modifications : List Char
deriving DecidableEq, Repr

/-- The `full_conversation` variable: user/assistant message contents joined
with spaces and lowered. -/
def full_conversation (conv : List Msg) : List Char :=
  lower (joinSpace ((conv.filter
    (fun m => m.role == "user".data || m.role == "assistant".data)).map (·.content)))

/-- The body of the `for pattern, item_name in item_patterns` loop: a line is
appended when the pattern occurs in the text and the name resolves in the
menu, with the quantity resolved by the quantity regex. -/
def lineFor (menu : Menu) (t : List Char) (pr : List Char × List Char) :
    Option OrderedItem :=
  if isSubstr pr.1 t then
    match get_item_by_name menu pr.2 with
    | some it =>
        some { name := it.name, price := it.price,
               quantity := extract_quantity t pr.1, modifications := [] }
    | none => none
  else none

/-- `OrderProcessor.extract_items_from_conversation`. -/
def extract_items_from_conversation (menu : Menu) (conv : List Msg) :
    List OrderedItem :=
  item_patterns.filterMap (lineFor menu (full_conversation conv))

/-! ### Order assembly (`EnhancedOrderProcessor.create_order_data` and the
`on_client_disconnected` handler of `enhanced_restaurant_bot.py`) -/

/-- The `conversation_text` variable: every message content joined with
spaces and lowered (`create_order_data` lowers it at creation; the disconnect
handler lowers it inside each completion-phrase membership test). -/
def conversation_text (conv : List Msg) : List Char :=
  lower (joinSpace (conv.map (·.content)))

/-- The fulfillment-type conditional of `create_order_data`, applied to the
lowered conversation text: default `"takeout"`, `"dine-in"` when `"dine in"`
or `"dining in"` occurs, else `"delivery"` when `"delivery"` occurs. -/
def order_type_of (t : List Char) : List Char :=
  if isSubstr "dine in".data t || isSubstr "dining in".data t then "dine-in".data
  else if isSubstr "delivery".data t then "delivery".data
  else "takeout".data

/-- The structured order dict assembled by `create_order_data` (the customer
dict and the wall-clock `estimated_ready_time` are carried by the source but
play no role in any claim; the customer regex extraction and `datetime.now`
are outside this embedding). -/
structure OrderData where
  items : List OrderedItem
  order_type : List Char
  special_instructions : List Char
deriving DecidableEq, Repr

/-- `EnhancedOrderProcessor.create_order_data`. -/
def create_order_data (menu : Menu) (conv : List Msg) : OrderData :=
  let items := extract_items_from_conversation menu conv
  let text := conversation_text conv
  { items := items
    order_type := order_type_of text
    special_instructions :=
      if isSubstr "extra".data text || isSubstr "no ".data text
          || isSubstr "without".data text then
        "See conversation for special requests".data
      else [] }

/-- The `order_completion_indicators` list of the disconnect handler. -/
def order_completion_indicators : List (List Char) :=
  ["process this order".data, "order total".data, "ready for pickup".data,
   "thank you for your order".data, "being prepared".data, "start preparing".data]

/-- The completion gate: some completion phrase occurs in the lowered joined
conversation text. -/
def isOrderComplete (conv : List Msg) : Bool :=
  order_completion_indicators.any (fun p => isSubstr p (conversation_text conv))

/-- The order the disconnect handler hands to `send_order_to_n8n`, if any:
`none` when the completion gate fails or when the extracted item list is
empty, otherwise the assembled order data. -/
def submittable_order (menu : Menu) (conv : List Msg) : Option OrderData :=
  if isOrderComplete conv then
    let od := create_order_data menu conv
    if od.items.isEmpty then none else some od
  else none

/-- The externally observable session state: how many times the webhook sink
(`send_order_to_n8n`, one HTTP POST per invocation) has been invoked. -/
structure Session where
  sinkCalls : Nat
deriving DecidableEq, Repr

/-- One invocation of the `on_client_disconnected` handler: when the gate
yields a submittable order it unconditionally performs one sink invocation;
the source keeps no flag recording that a submission already happened. -/
def on_client_disconnected_step (menu : Menu) (conv : List Msg) (s : Session) :
    Session :=
  match submittable_order menu conv with
  | some _ => { sinkCalls := s.sinkCalls + 1 }
  | none => s

/-! ### Spec-side defensive pricing (for comparison with `calculate_total`) -/

/-- The spec's defensive pricing error. -/
inductive PricingError where
  | invalidLine
deriving DecidableEq, Repr

/-- Modelled from the spec: the spec's `price(lines, taxRate)` fails with
`PricingError` if any line has non-positive quantity or a negative price, and
otherwise returns `round(subtotal + subtotal * taxRate, 2)`.  This validating
variant exists nowhere in the source; it is stated here only to compare with
the source's `calculate_total`. -/
def price_spec (items : List PricedLine) (taxRate : ℚ) :
    Except PricingError ℚ :=
  if items.any (fun l => l.quantity ≤ 0 || l.price < 0) then
    .error .invalidLine
  else
    let subtotal := (items.map (fun it => it.price * (it.quantity : ℚ))).sum
    .ok (roundTo2 (subtotal + subtotal * taxRate))

deriving instance DecidableEq for Except

/-! ### Concrete fixtures -/

/-- A small catalog fixture in the shape of the restaurant menu data. -/
def demoMenu : Menu :=
  [("Maki Rolls".data,
    [⟨"California Roll".data, 728/100, []⟩,
     ⟨"Dragon Roll".data, 1498/100, []⟩])]

/-- A catalog fixture with the same item name in two different categories
(each category's names are duplicate-free). -/
def dupMenu : Menu :=
  [("Maki Rolls".data, [⟨"Salmon Roll".data, 728/100, []⟩]),
   ("Special Rolls".data, [⟨"Salmon Roll".data, 1298/100, []⟩])]

/-- Transcript fixture: a quantity word before the phrase. -/
def convTwo : List Msg := [⟨"user".data, "two california roll".data⟩]

/-- Transcript fixture: the phrase alone. -/
def convOne : List Msg := [⟨"user".data, "california roll".data⟩]

/-- Transcript fixture: a completion phrase together with a matched item. -/
def convDone : List Msg :=
  [⟨"assistant".data, "thank you for your order".data⟩,
   ⟨"user".data, "california roll".data⟩]

/-- Transcript fixture: a catalog item mentioned verbatim that is not among
the eight hardcoded patterns. -/
def convDragon : List Msg := [⟨"user".data, "i want a dragon roll please".data⟩]

/-- Transcript fixture containing both a dine-in phrase and "delivery". -/
def convBoth : List Msg :=
  [⟨"user".data, "i want delivery no wait i am dining in".data⟩]

/-! ### Derived views of the catalog used to state the claims -/

/-- Every item reachable by iterating the categories of the catalog, in
iteration order. -/
def itemsOf (menu : Menu) : List MenuItem := menu.flatMap (·.2)

/-- The (category, item) pairs in the order `_build_search_index` visits
them. -/
def menuPairs (menu : Menu) : List (List Char × MenuItem) :=
  menu.flatMap (fun cat => cat.2.map (fun it => (cat.1, it)))

/-- Folding `dictInsert` over a pair list from a given dict (the flattened
form of `_build_search_index`). -/
def insertAll (idx : List IndexEntry) (l : List (List Char × MenuItem)) :
    List IndexEntry :=
  l.foldl (fun idx p => dictInsert (lower p.2.name) p idx) idx

/-! ## Helper lemmas -/

theorem toNat_ofNat_upper (n : Nat) (h1 : 65 ≤ n) (h2 : n ≤ 90) :
    (Char.ofNat (n + 32)).toNat = n + 32 := by
  interval_cases n <;> rfl

theorem char_toLower_idem (c : Char) : c.toLower.toLower = c.toLower := by
  by_cases h : c.toNat ≥ 65 ∧ c.toNat ≤ 90
  · have hlow : c.toLower = Char.ofNat (c.toNat + 32) := by
      simp only [Char.toLower]
      rw [if_pos h]
    have ht := toNat_ofNat_upper c.toNat h.1 h.2
    rw [hlow]
    conv_lhs => simp only [Char.toLower]
    rw [if_neg (by simp only [ht]; omega)]
  · have hlow : c.toLower = c := by
      simp only [Char.toLower]
      rw [if_neg h]
    rw [hlow, hlow]

theorem lower_idem (l : List Char) : lower (lower l) = lower l := by
  induction l with
  | nil => rfl
  | cons c t ih =>
    simp only [lower, List.map_cons] at ih ⊢
    rw [char_toLower_idem, ih]

theorem isPrefixOf_self (l : List Char) : l.isPrefixOf l = true := by
  induction l with
  | nil => rfl
  | cons c t ih => simp [List.isPrefixOf, ih]

theorem isSubstr_self (p : List Char) : isSubstr p p = true := by
  cases p with
  | nil => rfl
  | cons c t => simp [isSubstr, isPrefixOf_self]

theorem isSubstr_cons (p : List Char) (c : Char) (t : List Char)
    (h : isSubstr p t = true) : isSubstr p (c :: t) = true := by
  simp [isSubstr, h]

theorem isSubstr_append (p w t : List Char) (h : isSubstr p t = true) :
    isSubstr p (w ++ t) = true := by
  induction w with
  | nil => exact h
  | cons c w ih => exact isSubstr_cons _ _ _ ih

theorem isSubstr_nil_left (t : List Char) : isSubstr [] t = true := by
  cases t <;> simp [isSubstr, List.isPrefixOf]

theorem takeWhile_append_stop (q : Char → Bool) (w : List Char) (a : Char)
    (r : List Char) (hw : ∀ c ∈ w, q c = true) (ha : q a = false) :
    (w ++ a :: r).takeWhile q = w := by
  induction w with
  | nil => simp [List.takeWhile_cons, ha]
  | cons c t ih =>
    have hc : q c = true := hw c (by simp)
    simp only [List.cons_append, List.takeWhile_cons, hc, if_true]
    rw [ih (fun c hc => hw c (by simp [hc]))]

theorem dropWhile_append_stop (q : Char → Bool) (w : List Char) (a : Char)
    (r : List Char) (hw : ∀ c ∈ w, q c = true) (ha : q a = false) :
    (w ++ a :: r).dropWhile q = a :: r := by
  induction w with
  | nil => simp [List.dropWhile_cons, ha]
  | cons c t ih =>
    have hc : q c = true := hw c (by simp)
    simp only [List.cons_append, List.dropWhile_cons, hc, if_true]
    exact ih (fun c hc => hw c (by simp [hc]))

theorem dropWhile_eq_self_of_takeWhile_nil (q : Char → Bool) (l : List Char)
    (h : l.takeWhile q = []) : l.dropWhile q = l := by
  cases l with
  | nil => rfl
  | cons c t =>
    cases hqc : q c with
    | true => simp [List.takeWhile_cons, hqc] at h
    | false => simp [List.dropWhile_cons, hqc]

theorem tryMatch_word_space (p w : List Char) (hw : w ≠ [])
    (hall : ∀ c ∈ w, isWordCharB c = true) (hp : p.takeWhile isWsB = []) :
    tryMatch p (w ++ ' ' :: p) = some w := by
  have hsp : isWordCharB ' ' = false := rfl
  have hws : isWsB ' ' = true := rfl
  have htake := takeWhile_append_stop isWordCharB w ' ' p hall hsp
  have hdrop := dropWhile_append_stop isWordCharB w ' ' p hall hsp
  have hd2 := dropWhile_eq_self_of_takeWhile_nil isWsB p hp
  obtain ⟨c, w', rfl⟩ := List.exists_cons_of_ne_nil hw
  simp only [tryMatch, htake, hdrop, List.takeWhile_cons, List.dropWhile_cons,
    hws, hp, hd2, if_true]
  simp [isPrefixOf_self]

theorem searchQty_word_space (p w : List Char) (hw : w ≠ [])
    (hall : ∀ c ∈ w, isWordCharB c = true) (hp : p.takeWhile isWsB = []) :
    searchQty p (w ++ ' ' :: p) = some w := by
  have ht := tryMatch_word_space p w hw hall hp
  obtain ⟨c, w', rfl⟩ := List.exists_cons_of_ne_nil hw
  simp only [List.cons_append] at ht ⊢
  simp [searchQty, ht]

theorem extract_quantity_word_space (p w : List Char) (hw : w ≠ [])
    (hall : ∀ c ∈ w, isWordCharB c = true) (hp : p.takeWhile isWsB = []) :
    extract_quantity (w ++ ' ' :: p) p = qtyLookup w := by
  unfold extract_quantity
  rw [searchQty_word_space p w hw hall hp]

theorem pattern_starts_with_word_char :
    ∀ pr ∈ item_patterns, pr.1.takeWhile isWsB = [] := by decide

theorem lookupIndex_dictInsert_self (idx : List IndexEntry) (k : List Char)
    (v : List Char × MenuItem) :
    lookupIndex (dictInsert k v idx) k = some v := by
  induction idx with
  | nil => simp [dictInsert, lookupIndex, List.find?]
  | cons e rest ih =>
    obtain ⟨k', v'⟩ := e
    by_cases h : k' = k
    · simp [dictInsert, h, lookupIndex, List.find?]
    · have hb : (k' == k) = false := beq_eq_false_iff_ne.mpr h
      simp only [dictInsert, if_neg h]
      simp only [lookupIndex, List.find?, hb] at ih ⊢
      exact ih

theorem lookupIndex_dictInsert_ne (idx : List IndexEntry) (k : List Char)
    (v : List Char × MenuItem) (k' : List Char) (h : k' ≠ k) :
    lookupIndex (dictInsert k v idx) k' = lookupIndex idx k' := by
  have hb : (k == k') = false := beq_eq_false_iff_ne.mpr (Ne.symm h)
  induction idx with
  | nil => simp [dictInsert, lookupIndex, List.find?, hb]
  | cons e rest ih =>
    obtain ⟨ke, ve⟩ := e
    by_cases he : ke = k
    · subst he
      simp [dictInsert, lookupIndex, List.find?, hb]
    · simp only [dictInsert, if_neg he]
      by_cases hq : ke = k'
      · subst hq
        simp [lookupIndex, List.find?]
      · have hbq : (ke == k') = false := beq_eq_false_iff_ne.mpr hq
        simp only [lookupIndex, List.find?, hbq] at ih ⊢
        exact ih

theorem insertAll_cons (idx : List IndexEntry) (p : List Char × MenuItem)
    (rest : List (List Char × MenuItem)) :
    insertAll idx (p :: rest) = insertAll (dictInsert (lower p.2.name) p idx) rest :=
  rfl

theorem lookupIndex_insertAll_of_not_mem (l : List (List Char × MenuItem))
    (idx : List IndexEntry) (k : List Char)
    (h : ∀ p ∈ l, lower p.2.name ≠ k) :
    lookupIndex (insertAll idx l) k = lookupIndex idx k := by
  induction l generalizing idx with
  | nil => rfl
  | cons p rest ih =>
    rw [insertAll_cons, ih _ (fun q hq => h q (by simp [hq]))]
    exact lookupIndex_dictInsert_ne _ _ _ _ (Ne.symm (h p (by simp)))

theorem lookupIndex_insertAll_mem (l : List (List Char × MenuItem))
    (idx : List IndexEntry)
    (hnd : (l.map (fun p => lower p.2.name)).Nodup) (c : List Char)
    (it : MenuItem) (hmem : (c, it) ∈ l) :
    lookupIndex (insertAll idx l) (lower it.name) = some (c, it) := by
  induction l generalizing idx with
  | nil => cases hmem
  | cons p rest ih =>
    rw [List.map_cons] at hnd
    have hnd' := List.nodup_cons.mp hnd
    rcases List.mem_cons.mp hmem with heq | hmem'
    · subst heq
      rw [insertAll_cons]
      rw [lookupIndex_insertAll_of_not_mem rest _ _ ?_]
      · exact lookupIndex_dictInsert_self _ _ _
      · intro q hq he
        have hin : lower it.name ∈ List.map (fun p => lower p.2.name) rest := by
          rw [← he]
          exact List.mem_map_of_mem _ hq
        exact hnd'.1 hin
    · rw [insertAll_cons]
      exact ih _ hnd'.2 hmem'

theorem inner_fold_eq (c : List Char) (items : List MenuItem) :
    ∀ idx : List IndexEntry,
      items.foldl (fun idx it => dictInsert (lower it.name) (c, it) idx) idx
        = insertAll idx (items.map (fun it => (c, it))) := by
  induction items with
  | nil => intro idx; rfl
  | cons it rest ih =>
    intro idx
    simp only [List.foldl_cons, List.map_cons, insertAll] at ih ⊢
    exact ih _

theorem build_search_index_eq (menu : Menu) :
    build_search_index menu = insertAll [] (menuPairs menu) := by
  suffices h : ∀ idx : List IndexEntry,
      menu.foldl
        (fun idx cat => cat.2.foldl
          (fun idx it => dictInsert (lower it.name) (cat.1, it) idx) idx) idx
        = insertAll idx (menuPairs menu) from h []
  induction menu with
  | nil => intro idx; rfl
  | cons cat rest ih =>
    intro idx
    simp only [List.foldl_cons, menuPairs, List.flatMap_cons, insertAll,
      List.foldl_append] at ih ⊢
    rw [inner_fold_eq cat.1 cat.2 idx]
    simp only [insertAll] at ih ⊢
    exact ih _

theorem exists_pair_of_mem_itemsOf (menu : Menu) (it : MenuItem)
    (h : it ∈ itemsOf menu) : ∃ c, (c, it) ∈ menuPairs menu := by
  simp only [itemsOf, List.mem_flatMap] at h
  obtain ⟨cat, hcat, hit⟩ := h
  refine ⟨cat.1, ?_⟩
  simp only [menuPairs, List.mem_flatMap]
  exact ⟨cat, hcat, List.mem_map_of_mem _ hit⟩

/-! ## Claim theorems -/

/-- C1 counterexample: on a conversation with a completion phrase and one
matched item, invoking the disconnect handler twice invokes the webhook sink
twice, not exactly once. -/
theorem C1_counterexample :
    on_client_disconnected_step demoMenu convDone
        (on_client_disconnected_step demoMenu convDone ⟨0⟩) = ⟨2⟩
      ∧ (⟨2⟩ : Session) ≠ ⟨1⟩ := by
  constructor
  · with_unfolding_all decide
  · with_unfolding_all decide

/-- C1 (amended): the disconnect handler keeps no session-scoped idempotency
flag; whenever the conversation yields a submittable order, every invocation
performs one sink call, so two invocations perform exactly two sink calls. -/
theorem C1_theorem (menu : Menu) (conv : List Msg) (s : Session)
    (h : (submittable_order menu conv).isSome = true) :
    on_client_disconnected_step menu conv
      (on_client_disconnected_step menu conv s) = ⟨s.sinkCalls + 2⟩ := by
  cases hso : submittable_order menu conv with
  | none => rw [hso] at h; cases h
  | some od => simp [on_client_disconnected_step, hso]

/-- C1 witness: the amended statement at the concrete fixture. -/
theorem C1_witness :
    on_client_disconnected_step demoMenu convDone
      (on_client_disconnected_step demoMenu convDone ⟨0⟩) = ⟨0 + 2⟩ :=
  C1_theorem demoMenu convDone ⟨0⟩ (by with_unfolding_all decide)

/-- C2 counterexample: "dragon roll" is a catalog item of the fixture menu
and its lowercased name occurs verbatim in the transcript, yet extraction
produces no OrderLine at all, because only the eight hardcoded patterns are
scanned. -/
theorem C2_counterexample :
    isSubstr (lower "Dragon Roll".data) (full_conversation convDragon) = true
      ∧ (⟨"Dragon Roll".data, 1498/100, []⟩ : MenuItem) ∈ itemsOf demoMenu
      ∧ extract_items_from_conversation demoMenu convDragon = [] := by
  refine ⟨by decide, ?_, ?_⟩
  · with_unfolding_all decide
  · with_unfolding_all decide

/-- C2 (amended): matching is restricted to the fixed `item_patterns` list:
for every (phrase, name) pair in that list, if the phrase occurs in the
concatenated lowercase transcript text and the name resolves in the catalog,
an OrderLine for the resolved item is produced. -/
theorem C2_theorem (menu : Menu) (conv : List Msg) (p n : List Char)
    (hmem : (p, n) ∈ item_patterns)
    (hsub : isSubstr p (full_conversation conv) = true)
    (it : MenuItem) (hit : get_item_by_name menu n = some it) :
    (⟨it.name, it.price, extract_quantity (full_conversation conv) p, []⟩ :
        OrderedItem)
      ∈ extract_items_from_conversation menu conv := by
  unfold extract_items_from_conversation
  refine List.mem_filterMap.mpr ⟨(p, n), hmem, ?_⟩
  simp [lineFor, hsub, hit]

/-- C2 witness: the amended statement at the concrete fixture. -/
theorem C2_witness :
    (⟨"California Roll".data, 728/100,
        extract_quantity (full_conversation convOne) "california roll".data, []⟩ :
        OrderedItem)
      ∈ extract_items_from_conversation demoMenu convOne :=
  C2_theorem demoMenu convOne "california roll".data "California Roll".data
    (by decide) (by decide) ⟨"California Roll".data, 728/100, []⟩
    (by with_unfolding_all decide)

/-- C3 counterexample: on a non-empty catalog, searching with the empty query
returns every item, not the empty sequence (Python's `"" in name` is always
true). -/
theorem C3_counterexample :
    demoMenu ≠ []
      ∧ search_items demoMenu [] =
          [⟨"California Roll".data, 728/100, []⟩, ⟨"Dragon Roll".data, 1498/100, []⟩]
      ∧ ([⟨"California Roll".data, 728/100, []⟩, ⟨"Dragon Roll".data, 1498/100, []⟩] :
          List MenuItem) ≠ [] := by
  refine ⟨by decide, ?_, ?_⟩
  · with_unfolding_all decide
  · with_unfolding_all decide

/-- C3 (amended): for every catalog, searching with the empty query returns
the whole search index (every loaded item, deduplicated by lowered name), in
index order. -/
theorem C3_theorem (menu : Menu) :
    search_items menu [] = (build_search_index menu).map (fun e => e.2.2) := by
  simp only [search_items]
  rw [show lower [] = [] from rfl]
  generalize build_search_index menu = idx
  induction idx with
  | nil => rfl
  | cons e rest ih =>
    simp only [List.filterMap_cons, List.map_cons, isSubstr_nil_left] at ih ⊢
    simp only [Bool.true_or, if_true] at ih ⊢
    rw [ih]

/-- C4: pricing the two example lines at the hardcoded 13% rate yields
subtotal 18.54, rounded tax 2.41, and total 20.95, which equals
round(subtotal + tax, 2). -/
theorem C4_theorem :
    (List.map (fun it => it.price * (it.quantity : ℚ))
        [(⟨728/100, 2⟩ : PricedLine), ⟨398/100, 1⟩]).sum = 1854/100
      ∧ roundTo2 ((1854/100 : ℚ) * (13/100)) = 241/100
      ∧ calculate_total [⟨728/100, 2⟩, ⟨398/100, 1⟩] true = 2095/100
      ∧ (2095/100 : ℚ) = roundTo2 (1854/100 + 241/100) := by
  refine ⟨?_, ?_, ?_, ?_⟩ <;> with_unfolding_all decide

/-- C5 counterexample: with the same item name in two categories (valid
input: duplicates only across categories), the second insertion overwrites
the index binding, so lookup of the first item's normalized name returns the
other item. -/
theorem C5_counterexample :
    (⟨"Salmon Roll".data, 728/100, []⟩ : MenuItem) ∈ itemsOf dupMenu
      ∧ get_item_by_name dupMenu (lower "Salmon Roll".data) =
          some ⟨"Salmon Roll".data, 1298/100, []⟩
      ∧ (⟨"Salmon Roll".data, 1298/100, []⟩ : MenuItem) ≠
          ⟨"Salmon Roll".data, 728/100, []⟩ := by
  refine ⟨?_, ?_, ?_⟩ <;> with_unfolding_all decide

/-- C5 (amended): when the lowered item names are pairwise distinct across
the whole catalog, exact lookup of the normalized name of any item reachable
by category iteration returns that same item. -/
theorem C5_theorem (menu : Menu)
    (hnd : ((menuPairs menu).map (fun p => lower p.2.name)).Nodup)
    (it : MenuItem) (hit : it ∈ itemsOf menu) :
    get_item_by_name menu (lower it.name) = some it := by
  obtain ⟨c, hpair⟩ := exists_pair_of_mem_itemsOf menu it hit
  have hlook : lookupIndex (build_search_index menu) (lower it.name) = some (c, it) := by
    rw [build_search_index_eq]
    exact lookupIndex_insertAll_mem _ _ hnd c it hpair
  unfold get_item_by_name
  rw [lower_idem, hlook]

/-- C5 witness: the amended statement at the concrete fixture. -/
theorem C5_witness :
    get_item_by_name demoMenu (lower "California Roll".data) =
      some ⟨"California Roll".data, 728/100, []⟩ :=
  C5_theorem demoMenu (by decide) ⟨"California Roll".data, 728/100, []⟩
    (by with_unfolding_all decide)

/-- C6: quantity resolution.  For a matched pattern preceded by a single word,
the produced OrderLine's quantity is the quantity-table lookup of that word
(table value when present, 1 otherwise); a word absent from the table yields
1; with no preceding word the quantity is 1; in particular
"two california roll" yields quantity 2 and "california roll" alone yields
quantity 1. -/
theorem C6_theorem :
    (∀ (menu : Menu) (p n : List Char), (p, n) ∈ item_patterns →
      ∀ w : List Char, w ≠ [] → (∀ c ∈ w, isWordCharB c = true) →
      ∀ it : MenuItem, get_item_by_name menu n = some it →
        lineFor menu (w ++ ' ' :: p) (p, n) =
          some ⟨it.name, it.price, qtyLookup w, []⟩)
    ∧ (∀ w : List Char, qty_map.find? (fun e => e.1 == w) = none → qtyLookup w = 1)
    ∧ (∀ pr ∈ item_patterns, extract_quantity pr.1 pr.1 = 1)
    ∧ extract_items_from_conversation demoMenu convTwo =
        [⟨"California Roll".data, 728/100, 2, []⟩]
    ∧ extract_items_from_conversation demoMenu convOne =
        [⟨"California Roll".data, 728/100, 1, []⟩] := by
  refine ⟨?_, ?_, ?_, ?_, ?_⟩
  · intro menu p n hmem w hw hall it hit
    have hp : p.takeWhile isWsB = [] := pattern_starts_with_word_char (p, n) hmem
    have hsub : isSubstr p (w ++ ' ' :: p) = true :=
      isSubstr_append _ _ _ (isSubstr_cons _ _ _ (isSubstr_self p))
    have hq := extract_quantity_word_space p w hw hall hp
    simp [lineFor, hsub, hit, hq]
  · intro w h
    simp [qtyLookup, h]
  · decide
  · with_unfolding_all decide
  · with_unfolding_all decide

/-- C6 witness: the per-pattern line production at a concrete preceding
word. -/
theorem C6_witness :
    lineFor demoMenu ("two".data ++ ' ' :: "california roll".data)
      ("california roll".data, "California Roll".data) =
      some ⟨"California Roll".data, 728/100, qtyLookup "two".data, []⟩ :=
  C6_theorem.1 demoMenu "california roll".data "California Roll".data (by decide)
    "two".data (by decide) (by decide) ⟨"California Roll".data, 728/100, []⟩
    (by with_unfolding_all decide)

/-- C7: completion gate.  Without a completion phrase no order is submittable;
with an empty extracted item list no order is submittable; and with no
submittable order the disconnect handler performs no sink invocation. -/
theorem C7_theorem :
    (∀ (menu : Menu) (conv : List Msg), isOrderComplete conv = false →
        submittable_order menu conv = none)
    ∧ (∀ (menu : Menu) (conv : List Msg),
        extract_items_from_conversation menu conv = [] →
        submittable_order menu conv = none)
    ∧ (∀ (menu : Menu) (conv : List Msg) (s : Session),
        submittable_order menu conv = none →
        on_client_disconnected_step menu conv s = s) := by
  refine ⟨?_, ?_, ?_⟩
  · intro menu conv h
    simp [submittable_order, h]
  · intro menu conv h
    simp [submittable_order, create_order_data, h]
  · intro menu conv s h
    simp [on_client_disconnected_step, h]

/-- C7 witness: the gate at a concrete transcript with items mentioned but no
completion phrase. -/
theorem C7_witness : submittable_order demoMenu convOne = none :=
  C7_theorem.1 demoMenu convOne (by decide)

/-- C8 counterexample: the source's pricing operation does not fail on a
negative price or a zero quantity; it happily returns a rounded total, while
the spec's validating variant signals `PricingError` on the same input. -/
theorem C8_counterexample :
    price_spec [⟨-1, 1⟩] (13/100) = .error .invalidLine
      ∧ calculate_total [⟨-1, 1⟩] true = -(113/100)
      ∧ calculate_total [⟨5, 0⟩] true = 0 := by
  refine ⟨?_, ?_, ?_⟩ <;> with_unfolding_all decide

/-- C8 (amended): `calculate_total` performs no input validation at all: even
when some line has non-positive quantity or negative price it returns the
rounded taxed subtotal, where the spec's validating `price_spec` fails with
`PricingError`. -/
theorem C8_theorem (items : List PricedLine)
    (h : ∃ l ∈ items, l.quantity ≤ 0 ∨ l.price < 0) :
    calculate_total items true =
      roundTo2 ((items.map (fun it => it.price * (it.quantity : ℚ))).sum
        + (items.map (fun it => it.price * (it.quantity : ℚ))).sum * (13/100))
      ∧ price_spec items (13/100) = .error .invalidLine := by
  constructor
  · rfl
  · have hany : (items.any fun l => l.quantity ≤ 0 || l.price < 0) = true := by
      rcases h with ⟨l, hl, hc⟩
      refine List.any_eq_true.mpr ⟨l, hl, ?_⟩
      rcases hc with h1 | h2
      · simp only [Bool.or_eq_true, decide_eq_true_eq]
        exact Or.inl h1
      · simp only [Bool.or_eq_true, decide_eq_true_eq]
        exact Or.inr h2
    simp [price_spec, hany]

/-- C8 witness: the amended statement at a concrete negative-price line. -/
theorem C8_witness :
    calculate_total [⟨-1, 1⟩] true =
      roundTo2 ((List.map (fun it => it.price * (it.quantity : ℚ))
          [(⟨-1, 1⟩ : PricedLine)]).sum
        + (List.map (fun it => it.price * (it.quantity : ℚ))
            [(⟨-1, 1⟩ : PricedLine)]).sum * (13/100))
      ∧ price_spec [⟨-1, 1⟩] (13/100) = .error .invalidLine :=
  C8_theorem [⟨-1, 1⟩] ⟨⟨-1, 1⟩, List.mem_singleton.mpr rfl, Or.inr (by norm_num)⟩

/-- C9: fulfillment-type precedence.  The order type is "dine-in" whenever
"dine in" or "dining in" occurs in the lowered conversation text, else
"delivery" when "delivery" occurs, else "takeout". -/
theorem C9_theorem :
    (∀ (menu : Menu) (conv : List Msg),
        (isSubstr "dine in".data (conversation_text conv)
          || isSubstr "dining in".data (conversation_text conv)) = true →
        (create_order_data menu conv).order_type = "dine-in".data)
    ∧ (∀ (menu : Menu) (conv : List Msg),
        (isSubstr "dine in".data (conversation_text conv)
          || isSubstr "dining in".data (conversation_text conv)) = false →
        isSubstr "delivery".data (conversation_text conv) = true →
        (create_order_data menu conv).order_type = "delivery".data)
    ∧ (∀ (menu : Menu) (conv : List Msg),
        (isSubstr "dine in".data (conversation_text conv)
          || isSubstr "dining in".data (conversation_text conv)) = false →
        isSubstr "delivery".data (conversation_text conv) = false →
        (create_order_data menu conv).order_type = "takeout".data) := by
  refine ⟨?_, ?_, ?_⟩
  · intro menu conv h
    simp [create_order_data, order_type_of, h]
  · intro menu conv h1 h2
    simp [create_order_data, order_type_of, h1, h2]
  · intro menu conv h1 h2
    simp [create_order_data, order_type_of, h1, h2]

/-- C9 witness: a transcript containing both "dining in" and "delivery"
resolves to "dine-in". -/
theorem C9_witness :
    (create_order_data demoMenu convBoth).order_type = "dine-in".data :=
  C9_theorem.1 demoMenu convBoth (by decide)

/-- C10: fuzzy fallback in name lookup.  When the exact index lookup of the
lowered query fails, `get_item_by_name` returns the first result of the
substring search (None exactly when the search is empty), so it can return an
item whose name differs from the query. -/
theorem C10_theorem :
    (∀ (menu : Menu) (q : List Char),
        lookupIndex (build_search_index menu) (lower q) = none →
        get_item_by_name menu q = (search_items menu q).head?)
    ∧ get_item_by_name demoMenu "dragon".data =
        some ⟨"Dragon Roll".data, 1498/100, []⟩
    ∧ (⟨"Dragon Roll".data, 1498/100, []⟩ : MenuItem).name ≠ "dragon".data := by
  refine ⟨?_, ?_, ?_⟩
  · intro menu q h
    simp [get_item_by_name, h]
  · with_unfolding_all decide
  · with_unfolding_all decide

/-- C10 witness: the fallback equation at a concrete query that misses the
index. -/
theorem C10_witness :
    get_item_by_name demoMenu "dragon".data =
      (search_items demoMenu "dragon".data).head? :=
  C10_theorem.1 demoMenu "dragon".data (by with_unfolding_all decide)

end PhoneBot
